import Mathlib

/-!
Verification of the qgis2swmm core against its specification.

The development shallowly embeds the two source modules:
  * `swmm_exporter.py` (class `SWMMExporter`): value coercions `_safe_float` /
    `_safe_str` and the section-by-section `.inp` text serializer
    `export_to_file`.
  * `swmm_core.py` (class `SWMMCore`): ID filling (`_fill_ids`), DEM elevation
    sync (`sync_elevations_from_dem`), link topology snapping
    (`auto_snap_links_to_nodes` / `_find_nearest_node`), subcatchment area /
    slope / width derivation, and the completeness validator
    (`validate_layer_completeness`, Nodes block).

Numbers are modelled as rationals; Python `round(x, d)` and the `%.Nf`
fixed-point formatting round half-to-even, as CPython does on the exactly
representable inputs exercised here.  QGIS collaborators (raster provider,
spatial index, point-in-polygon test) are modelled as explicit function
parameters, mirroring the spec's "elevation oracle" and geometry-utilities
boundary.  Attribute NULLs are modelled with `Option` / a dedicated `PyVal`
value.
-/

/-! ### Rounding (Python `round` and fixed-point formatting) -/

/-- Round a rational to the nearest integer, ties to even
(the rounding CPython applies in `round` and `format`). -/
def roundHalfEven (x : ℚ) : ℤ :=
  if Int.fract x < 1/2 then ⌊x⌋
  else if 1/2 < Int.fract x then ⌊x⌋ + 1
  else if ⌊x⌋ % 2 = 0 then ⌊x⌋ else ⌊x⌋ + 1

/-- Model of Python `round(x, d)` for rational `x`. -/
def pyRound (x : ℚ) (d : ℕ) : ℚ := (roundHalfEven (x * 10 ^ d) : ℚ) / 10 ^ d

/-! ### Decimal rendering of naturals (Python `str` on a nonnegative int) -/

/-- Digit-list accumulator for `natStr`; the first argument is structural
fuel, always called with fuel exceeding the number argument. -/
def natStrAux : ℕ → ℕ → List Char
  | 0, _ => []
  | _, 0 => []
  | fuel+1, n+1 => natStrAux fuel ((n+1) / 10) ++ [Nat.digitChar ((n+1) % 10)]

/-- Decimal rendering of a natural number, as Python `str` prints it. -/
def natStr (n : ℕ) : String := if n = 0 then "0" else String.mk (natStrAux (n+1) n)

/-! ### Python string helpers -/

/-- Whitespace recognized by Python `str.strip()` (the forms that occur in
attribute data). -/
def isPySpace (c : Char) : Bool := c == ' ' || c == '\t' || c == '\n' || c == '\r'

/-- Model of Python `str.strip()`. -/
def pyStrip (s : String) : String :=
  String.mk (((s.data.dropWhile isPySpace).reverse.dropWhile isPySpace).reverse)

/-- Value of a decimal digit character, `Option.none` on a non-digit. -/
def digitVal (c : Char) : Option ℕ :=
  if '0' ≤ c ∧ c ≤ '9' then some (c.toNat - '0'.toNat) else Option.none

/-- Reads a nonempty all-digit character list as a natural number. -/
def decDigitsVal (cs : List Char) : Option ℕ :=
  if cs.isEmpty then Option.none
  else cs.foldl (fun acc c => acc.bind (fun a => (digitVal c).map (fun d => 10 * a + d)))
    (some 0)

/-- Model of Python `float(s)` on plain decimal literals
(optional sign, digits, optional fractional part); other accepted Python
forms (exponents, `inf`, `nan`) do not occur in the exporter's data and
are treated as unparseable. -/
def parseDecimal (s : String) : Option ℚ :=
  let cs := (pyStrip s).data
  let signed : ℚ × List Char :=
    match cs with
    | '-' :: rest => (-1, rest)
    | '+' :: rest => (1, rest)
    | _ => (1, cs)
  let intChars := signed.2.takeWhile (fun c => c != '.')
  let rest := signed.2.dropWhile (fun c => c != '.')
  match rest with
  | [] => (decDigitsVal intChars).map (fun n => signed.1 * n)
  | _ :: fracChars =>
    match decDigitsVal intChars, decDigitsVal fracChars with
    | some i, some f => some (signed.1 * ((i : ℚ) + (f : ℚ) / 10 ^ fracChars.length))
    | some i, Option.none =>
      if fracChars.isEmpty then some (signed.1 * (i : ℚ)) else Option.none
    | Option.none, some f =>
      if intChars.isEmpty then some (signed.1 * ((f : ℚ) / 10 ^ fracChars.length))
      else Option.none
    | Option.none, Option.none => Option.none

/-! ### Python attribute values -/

/-- Attribute value as the exporter receives it from the core's data
extraction: NULL, a numeric value, or a string. -/
inductive PyVal where
  | none
  | num (q : ℚ)
  | str (s : String)
deriving DecidableEq

/-- Record passed to the exporter: a Python dict with string keys. -/
def PyDict := List (String × PyVal)

/-- Model of Python `dict.get(key, default)`: the stored value when the key
is present (even when that value is `None`), the default otherwise. -/
def dictGet (d : PyDict) (key : String) (dflt : PyVal) : PyVal :=
  (List.lookup key d).getD dflt

/-- Model of `SWMMExporter._safe_float`: `None` and unparseable strings
coerce to `0.0`, numbers pass through, parseable strings are parsed. -/
def safeFloat : PyVal → ℚ
  | PyVal.none => 0
  | PyVal.num q => q
  | PyVal.str s => (parseDecimal s).getD 0

/-- Decimal rendering used by `safeStr` on a numeric value; an approximate
model of Python `str(float)` (the serializer only applies `_safe_str` to
string-valued fields in the data pipeline, so this case is never load
bearing). -/
def floatRepr (q : ℚ) : String :=
  (if q < 0 then "-" else "") ++ natStr (roundHalfEven (10 * |q|)).natAbs

/-- Model of `SWMMExporter._safe_str`: `None` becomes the empty string,
anything else is rendered and stripped. -/
def safeStr : PyVal → String
  | PyVal.none => ""
  | PyVal.num q => pyStrip (floatRepr q)
  | PyVal.str s => pyStrip s

/-! ### Fixed-width formatting (Python format specs used by the exporter) -/

/-- Left-justify in a field of `w` characters (Python `{v:<w}`);
unchanged when already at least `w` long. -/
def padRight (s : String) (w : ℕ) : String :=
  s ++ String.mk (List.replicate (w - s.length) ' ')

/-- Right-justify in a field of `w` characters (Python `{v:>w}`). -/
def padLeft (s : String) (w : ℕ) : String :=
  String.mk (List.replicate (w - s.length) ' ') ++ s

/-- Left-pad a digit string with zeros to width `w`. -/
def padZeros (s : String) (w : ℕ) : String :=
  String.mk (List.replicate (w - s.length) '0') ++ s

/-- Fixed-point rendering with `d` decimals (Python `{v:.df}`), rounding
half to even. -/
def fmtFixed (q : ℚ) (d : ℕ) : String :=
  let n : ℤ := roundHalfEven (q * 10 ^ d)
  let m : ℕ := n.natAbs
  (if n < 0 then "-" else "") ++ natStr (m / 10 ^ d) ++ "." ++ padZeros (natStr (m % 10 ^ d)) d

/-! ### INP serializer (`SWMMExporter.export_to_file`)

Each `*Line` definition transcribes one row-producing f-string of
`export_to_file`; the per-column value extractors are factored out so that
theorems can speak about individual columns of a row. -/

/-- Subcatchment record as extracted by `SWMMCore.get_subcatchments_data`:
scalar attributes plus the flattened ring vertices (each vertex dict holds
exactly the numeric keys `x` and `y`, modelled as a rational pair). -/
structure SubcatData where
  attrs : PyDict
  vertices : List (ℚ × ℚ)

/-- Length column value of a CONDUITS row: `_safe_float(link.get('Length', 100.0))`. -/
def conduitLength (link : PyDict) : ℚ := safeFloat (dictGet link "Length" (PyVal.num 100.0))

/-- Roughness column value of a CONDUITS row: `_safe_float(link.get('ManningN', 0.009))`. -/
def conduitRough (link : PyDict) : ℚ := safeFloat (dictGet link "ManningN" (PyVal.num 0.009))

/-- Width column value of a SUBCATCHMENTS row: `_safe_float(subcat.get('Width', 50.0))`. -/
def subcatWidthVal (sub : PyDict) : ℚ := safeFloat (dictGet sub "Width" (PyVal.num 50.0))

/-- Slope column value of a SUBCATCHMENTS row: `_safe_float(subcat.get('Slope', 0.01))`. -/
def subcatSlopeVal (sub : PyDict) : ℚ := safeFloat (dictGet sub "Slope" (PyVal.num 0.01))

/-- JUNCTIONS data row for one node. -/
def junctionLine (node : PyDict) : String :=
  padRight (safeStr (dictGet node "ID" (PyVal.str "NODE"))) 15 ++ " " ++
  padLeft (fmtFixed (safeFloat (dictGet node "InvertElev" (PyVal.num 0.0))) 2) 10 ++ " " ++
  padLeft (fmtFixed (safeFloat (dictGet node "MaxDepth" (PyVal.num 1.0))) 2) 10 ++
  " 0          0          0"

/-- CONDUITS data row for one link. -/
def conduitLine (link : PyDict) : String :=
  padRight (safeStr (dictGet link "ID" (PyVal.str "LINK"))) 15 ++ " " ++
  padRight (safeStr (dictGet link "InletNode" (PyVal.str ""))) 17 ++ " " ++
  padRight (safeStr (dictGet link "OutletNode" (PyVal.str ""))) 17 ++ " " ++
  padLeft (fmtFixed (conduitLength link) 2) 10 ++ " " ++
  padLeft (fmtFixed (conduitRough link) 3) 10 ++ " " ++
  padLeft (fmtFixed (safeFloat (dictGet link "InOffset" (PyVal.num 0.0))) 2) 10 ++ " " ++
  padLeft (fmtFixed (safeFloat (dictGet link "OutOffset" (PyVal.num 0.0))) 2) 10 ++
  " 0          0"

/-- XSECTIONS data row for one link. -/
def xsectionLine (link : PyDict) : String :=
  padRight (safeStr (dictGet link "ID" (PyVal.str "LINK"))) 15 ++
  " CIRCULAR     1                0          0          0          1"

/-- SUBCATCHMENTS data row for one subcatchment. -/
def subcatLine (sub : PyDict) : String :=
  padRight (safeStr (dictGet sub "ID" (PyVal.str "SUB"))) 15 ++ " " ++
  padRight (safeStr (dictGet sub "RainGage" (PyVal.str ""))) 17 ++ " " ++
  padRight (safeStr (dictGet sub "Outlet" (PyVal.str ""))) 17 ++ " " ++
  padLeft (fmtFixed (safeFloat (dictGet sub "Area" (PyVal.num 1.0))) 2) 8 ++ " " ++
  padLeft (fmtFixed (safeFloat (dictGet sub "PercImperv" (PyVal.num 0.0))) 1) 8 ++ " " ++
  padLeft (fmtFixed (subcatWidthVal sub) 2) 8 ++ " " ++
  padLeft (fmtFixed (subcatSlopeVal sub) 2) 8 ++ " 0"

/-- COORDINATES data row for one node. -/
def coordLine (node : PyDict) : String :=
  padRight (safeStr (dictGet node "ID" (PyVal.str "NODE"))) 15 ++ " " ++
  padLeft (fmtFixed (safeFloat (dictGet node "X" (PyVal.num 0.0))) 3) 18 ++ " " ++
  padLeft (fmtFixed (safeFloat (dictGet node "Y" (PyVal.num 0.0))) 3) 18

/-- Closing-vertex removal before writing `[Polygons]` rows:
`if len(vertices) > 1 and vertices[0] == vertices[-1]: vertices = vertices[:-1]`. -/
def dropClosingVertex (vs : List (ℚ × ℚ)) : List (ℚ × ℚ) :=
  if 1 < vs.length ∧ vs.head? = vs.getLast? then vs.dropLast else vs

/-- Polygons data rows for one subcatchment (none when it has no vertices;
the vertex dict carries exact numeric `x`/`y`, so `_safe_float` passes the
coordinates through). -/
def polygonLinesFor (sub : SubcatData) : List String :=
  if sub.vertices.isEmpty then []
  else
    (dropClosingVertex sub.vertices).map (fun v =>
      padRight (safeStr (dictGet sub.attrs "ID" (PyVal.str "SUB"))) 15 ++ " " ++
      padLeft (fmtFixed v.1 3) 18 ++ " " ++ padLeft (fmtFixed v.2 3) 18)

/-- Full line list produced by `export_to_file` (the text written to disk is
these lines joined with newlines). -/
def exportLines (title : String) (nodesData linksData : List PyDict)
    (subcatsData : List SubcatData) : List String :=
  ["[TITLE]", ";;" ++ title, ""]
  ++ ["[OPTIONS]", ";;Option             Value",
      "FLOW_UNITS           CMS", "INFILTRATION         GREEN_AMPT",
      "FLOW_ROUTING         KINWAVE", "LINK_OFFSETS         DEPTH",
      "MIN_SLOPE            0.0", "ALLOW_PONDING        NO", ""]
  ++ ["[REPORT]", ";;Reporting Options",
      "SUBCATCHMENTS ALL", "NODES ALL", "LINKS ALL", ""]
  ++ ["[JUNCTIONS]",
      ";;Name           Elevation  MaxDepth   InitDepth  SurDepth   Aponded",
      ";;-------------- ---------- ---------- ---------- ---------- ----------"]
  ++ nodesData.map junctionLine ++ [""]
  ++ ["[CONDUITS]",
      ";;Name           From Node        To Node          Length     Roughness  InOffset   OutOffset  InitFlow   MaxFlow",
      ";;-------------- ---------------- ---------------- ---------- ---------- ---------- ---------- ---------- ----------"]
  ++ linksData.map conduitLine ++ [""]
  ++ ["[XSECTIONS]",
      ";;Link           Shape        Geom1            Geom2      Geom3      Geom4      Barrels    Culvert",
      ";;-------------- ------------ ---------------- ---------- ---------- ---------- ---------- ----------"]
  ++ linksData.map xsectionLine ++ [""]
  ++ ["[SUBCATCHMENTS]",
      ";;Name           Rain Gage        Outlet           Area     %Imperv  Width    %Slope   CurbLen  SnowPack",
      ";;-------------- ---------------- ---------------- -------- -------- -------- -------- -------- --------"]
  ++ (subcatsData.map (fun s => subcatLine s.attrs)) ++ [""]
  ++ ["[COORDINATES]",
      ";;Node           X-Coord            Y-Coord",
      ";;-------------- ------------------ ------------------"]
  ++ nodesData.map coordLine ++ [""]
  ++ ["[Polygons]",
      ";;Subcatchment   X-Coord            Y-Coord",
      ";;-------------- ------------------ ------------------"]
  ++ (subcatsData.map polygonLinesFor).flatten ++ [""]

/-- Recognizes a `;;` comment line of the generated file. -/
def isCommentLine (l : String) : Bool :=
  match l.data with
  | ';' :: ';' :: _ => true
  | _ => false

/-- Data rows of the section starting at `header`: the lines strictly after
the header up to the blank line that closes the section, with `;;` comment
lines removed. -/
def sectionDataRows (lines : List String) (header : String) : List String :=
  (((lines.dropWhile (fun l => l != header)).drop 1).takeWhile (fun l => l != "")).filter
    (fun l => !isCommentLine l)

/-! ### Geometry primitives (planar, projected CRS) -/

/-- Squared Euclidean distance between two points. -/
def sqDist (p q : ℚ × ℚ) : ℚ := (p.1 - q.1) ^ 2 + (p.2 - q.2) ^ 2

/-- Cross term of the shoelace sum for consecutive vertices. -/
def crossTerm (p q : ℚ × ℚ) : ℚ := p.1 * q.2 - q.1 * p.2

/-- Shoelace sum along a vertex walk, closing back to `first`. -/
def shoelaceFrom (first : ℚ × ℚ) : List (ℚ × ℚ) → ℚ
  | [] => 0
  | [x] => crossTerm x first
  | x :: y :: rest => crossTerm x y + shoelaceFrom first (y :: rest)

/-- Planar polygon area (model of `QgsGeometry.area()` on a simple ring,
which QGIS computes shoelace-style on a projected CRS). -/
def polyArea (vs : List (ℚ × ℚ)) : ℚ :=
  match vs with
  | [] => 0
  | v :: rest => |shoelaceFrom v (v :: rest)| / 2

/-- Minimum x over the vertices (model of `boundingBox().xMinimum()`). -/
def bboxXMin : List (ℚ × ℚ) → ℚ
  | [] => 0
  | p :: ps => ps.foldl (fun a q => min a q.1) p.1

/-- Maximum x over the vertices. -/
def bboxXMax : List (ℚ × ℚ) → ℚ
  | [] => 0
  | p :: ps => ps.foldl (fun a q => max a q.1) p.1

/-- Minimum y over the vertices. -/
def bboxYMin : List (ℚ × ℚ) → ℚ
  | [] => 0
  | p :: ps => ps.foldl (fun a q => min a q.2) p.2

/-- Maximum y over the vertices. -/
def bboxYMax : List (ℚ × ℚ) → ℚ
  | [] => 0
  | p :: ps => ps.foldl (fun a q => max a q.2) p.2

/-- Bounding-box width (`bbox.width()`). -/
def bboxWidth (vs : List (ℚ × ℚ)) : ℚ := bboxXMax vs - bboxXMin vs

/-- Bounding-box height (`bbox.height()`). -/
def bboxHeight (vs : List (ℚ × ℚ)) : ℚ := bboxYMax vs - bboxYMin vs

/-- Characteristic length `max(bbox.width(), bbox.height())` used by the
slope and width derivation. -/
def charLen (vs : List (ℚ × ℚ)) : ℚ := max (bboxWidth vs) (bboxHeight vs)

/-! ### ID generation (`SWMMCore._fill_ids`) -/

/-- Blank test applied per feature: `not val or not str(val).strip()`
(NULL is modelled as the empty string, which behaves identically under the
truthiness test). -/
def isBlankId (v : String) : Bool := pyStrip v == ""

/-- Pre-existing trimmed ID set collected before the pass:
`if val and str(val).strip(): existing.add(str(val).strip())`. -/
def collectExisting (feats : List String) : List String :=
  feats.filterMap (fun v => if pyStrip v == "" then Option.none else some (pyStrip v))

/-- Loop `while f"{prefix}{counter}" in existing: counter += 1`, with
structural fuel; callers pass fuel `existing.length + 1`, which always
suffices to reach a free number. -/
def findFreeAux (pfx : String) (existing : List String) : ℕ → ℕ → ℕ
  | 0, c => c
  | fuel+1, c =>
    if (pfx ++ natStr c) ∈ existing then findFreeAux pfx existing fuel (c + 1) else c

/-- Main loop of `_fill_ids` over the feature ID values, threading the
`existing` set and the persistent `counter`; returns the new ID value of
each feature in order. -/
def fillIdsGo (pfx : String) : List String → List String → ℕ → List String
  | [], _, _ => []
  | v :: rest, existing, counter =>
    if isBlankId v then
      let n := findFreeAux pfx existing (existing.length + 1) counter
      (pfx ++ natStr n) :: fillIdsGo pfx rest ((pfx ++ natStr n) :: existing) (n + 1)
    else
      v :: fillIdsGo pfx rest existing counter

/-- Model of `SWMMCore._fill_ids`: returns the ID column after one pass
(`counter` starts at 1, the existing set is collected up front). -/
def fillIds (pfx : String) (feats : List String) : List String :=
  fillIdsGo pfx feats (collectExisting feats) 1

/-! ### Topology snapping (`auto_snap_links_to_nodes`, `_find_nearest_node`) -/

/-- Node as seen by the snapper: ID attribute (NULL modelled as `""`) and
point position. -/
structure SnapNode where
  id : String
  pos : ℚ × ℚ
deriving DecidableEq

/-- Link feature: stable feature id, ID attribute, geometry vertices, and
the current `InletNode` / `OutletNode` attribute values (`Option.none`
models an attribute never written). -/
structure SnapLink where
  fid : ℕ
  id : String
  verts : List (ℚ × ℚ)
  inlet : Option String
  outlet : Option String
deriving DecidableEq

/-- Single nearest node of the list (model of
`QgsSpatialIndex.nearestNeighbor(point, 1)`; the index's tie-break is
unspecified, the model keeps the earliest of equally near nodes, and
theorems only rely on it where the nearest node is unique). -/
def nearestNode (p : ℚ × ℚ) : List SnapNode → Option SnapNode
  | [] => Option.none
  | n :: ns =>
    match nearestNode p ns with
    | Option.none => some n
    | some m => if sqDist p n.pos ≤ sqDist p m.pos then some n else some m

/-- Model of `SWMMCore._find_nearest_node`: the nearest node's ID when its
Euclidean distance is within `maxDist`, else `""`.  The source compares
`sqrt d2 <= max_dist`; over ℚ this is rendered square-root-free as
`0 ≤ max_dist ∧ d2 ≤ max_dist²`, which is equivalent for every real
`max_dist`.  A NULL node ID also yields `""` (`str(ID) if ID else ''`),
which coincides with returning the modelled `""` ID itself. -/
def findNearestNode (p : ℚ × ℚ) (maxDist : ℚ) (nodes : List SnapNode) : String :=
  match nearestNode p nodes with
  | Option.none => ""
  | some n => if 0 ≤ maxDist ∧ sqDist p n.pos ≤ maxDist * maxDist then n.id else ""

/-- Per-link body of the `auto_snap_links_to_nodes` loop: links with fewer
than two vertices (including empty geometries) are skipped; both endpoint
attributes are written only when at least one endpoint resolved
(`if inlet_id or outlet_id:`), otherwise the link is left untouched. -/
def snapUpdateLink (nodes : List SnapNode) (tol : ℚ) (l : SnapLink) : SnapLink :=
  match l.verts with
  | [] => l
  | [_] => l
  | v0 :: v1 :: rest =>
    let endPt := (v1 :: rest).getLast (List.cons_ne_nil v1 rest)
    let inletId := findNearestNode v0 tol nodes
    let outletId := findNearestNode endPt tol nodes
    if inletId ≠ "" ∨ outletId ≠ "" then
      { l with inlet := some inletId, outlet := some outletId }
    else l

/-- Model of `SWMMCore.auto_snap_links_to_nodes`: the links layer after one
snapping pass. -/
def autoSnapLinks (nodes : List SnapNode) (tol : ℚ) (links : List SnapLink) :
    List SnapLink :=
  links.map (snapUpdateLink nodes tol)

/-! ### Elevation sync (`SWMMCore.sync_elevations_from_dem`) -/

/-- DEM raster collaborator: extent membership test
(`dem_layer.extent().contains(pt)`) and the sampling primitive
(`provider.sample(pt, 1) -> (value, ok)`). -/
structure DemOracle where
  inExtent : ℚ × ℚ → Bool
  sample : ℚ × ℚ → Option ℚ × Bool

/-- Node as seen by the elevation sync: geometry point plus the `X`, `Y`
and `InvertElev` attribute values (`Option.none` models NULL / unset). -/
structure EvNode where
  pos : ℚ × ℚ
  xAttr : Option ℚ
  yAttr : Option ℚ
  invertElev : Option ℚ
deriving DecidableEq

/-- Loop body of `sync_elevations_from_dem` for one node; the Bool records
whether the node counted as `successful` (otherwise it counts as
`outside`). Coordinates are written unconditionally; the elevation is
written only for an in-extent point whose sample is `ok` and non-`None`. -/
def syncNode (dem : DemOracle) (n : EvNode) : EvNode × Bool :=
  let n1 := { n with xAttr := some (pyRound n.pos.1 3), yAttr := some (pyRound n.pos.2 3) }
  if dem.inExtent n.pos then
    match dem.sample n.pos with
    | (some v, true) => ({ n1 with invertElev := some (pyRound v 3) }, true)
    | _ => (n1, false)
  else (n1, false)

/-- Summary dict returned by `sync_elevations_from_dem`. -/
structure SyncSummary where
  total : ℕ
  successful : ℕ
  outside : ℕ
deriving DecidableEq

/-- Model of `SWMMCore.sync_elevations_from_dem`: updated nodes layer plus
the `{total_nodes, successful, outside_dem}` summary counts. -/
def syncElevations (dem : DemOracle) (nodes : List EvNode) :
    List EvNode × SyncSummary :=
  let stepped := nodes.map (syncNode dem)
  (stepped.map Prod.fst,
   { total := nodes.length,
     successful := (stepped.filter (fun r => r.2)).length,
     outside := (stepped.filter (fun r => !r.2)).length })

/-! ### Subcatchment derivations (`auto_calculate_subcatchment_*`) -/

/-- Model of `SWMMCore.auto_calculate_subcatchment_area` for one polygon:
`round(geom.area() / 10000.0, 4)` (m² to hectares). -/
def autoAreaHa (vs : List (ℚ × ℚ)) : ℚ := pyRound (polyArea vs / 10000) 4

/-- Model of `SWMMCore._sample_elevations_in_polygon`: a
`cols = rows = int(sqrt(samples))` grid of cell centers over the bounding
box; a sample is kept when the point lies inside the polygon
(`geom.contains`, the external point-in-polygon test, passed as `inPoly`)
and the provider reports `ok` with a non-`None` value. -/
def sampleElevationsInPolygon (inPoly : ℚ × ℚ → Bool)
    (smp : ℚ × ℚ → Option ℚ × Bool) (vs : List (ℚ × ℚ)) (samples : ℕ) : List ℚ :=
  let cols := Nat.sqrt samples
  let dx := bboxWidth vs / cols
  let dy := bboxHeight vs / cols
  ((List.range cols).map (fun i =>
    (List.range cols).filterMap (fun j =>
      let x := bboxXMin vs + dx * ((i : ℚ) + 1/2)
      let y := bboxYMin vs + dy * ((j : ℚ) + 1/2)
      if inPoly (x, y) then
        match smp (x, y) with
        | (some v, true) => some v
        | _ => Option.none
      else Option.none))).flatten

/-- Maximum of a value list (Python `max`), `0` on the empty list, which
the callers never pass. -/
def listMax : List ℚ → ℚ
  | [] => 0
  | x :: xs => xs.foldl max x

/-- Minimum of a value list (Python `min`). -/
def listMin : List ℚ → ℚ
  | [] => 0
  | x :: xs => xs.foldl min x

/-- Rational stand-in for `math.sqrt`: `Nat.sqrt`-based under-approximation
`sqrt(num*den)/den`, exact on perfect squares; within this development it is
only ever applied to `0` (a zero-extent bounding box forces zero area, see
`charLen_eq_zero_polyArea`), where it is exact. -/
def mathSqrtQ (q : ℚ) : ℚ :=
  if q ≤ 0 then 0 else (Nat.sqrt (q.num.toNat * q.den) : ℚ) / (q.den : ℚ)

/-- Loop body of `SWMMCore.auto_calculate_subcatchment_slope_and_width`
for one subcatchment polygon: slope %, then width, with the source's
fallbacks (`0.5` slope on fewer than 2 samples or a zero characteristic
length; `sqrt(area)` width on a zero characteristic length). -/
def autoSlopeWidth (inPoly : ℚ × ℚ → Bool) (smp : ℚ × ℚ → Option ℚ × Bool)
    (vs : List (ℚ × ℚ)) : ℚ × ℚ :=
  let elevations := sampleElevationsInPolygon inPoly smp vs 25
  let slopePct : ℚ :=
    if 2 ≤ elevations.length then
      if 0 < charLen vs then
        pyRound ((listMax elevations - listMin elevations) / charLen vs * 100) 2
      else 0.5
    else 0.5
  let width : ℚ :=
    if 0 < charLen vs then pyRound (polyArea vs / charLen vs) 2
    else pyRound (mathSqrtQ (polyArea vs)) 2
  (slopePct, width)

/-! ### Completeness validation (`validate_layer_completeness`, Nodes block) -/

/-- Node record as the validator reads it: stable feature id, the ID
attribute (NULL modelled as `""`, which the truthiness test treats the
same), and the `InvertElev` attribute. -/
structure VNode where
  fid : ℕ
  id : String
  invertElev : Option ℚ
deriving DecidableEq

/-- Feature label used in messages: `feat['ID'] or f"fid={feat.id()}"`. -/
def vnodeLabel (n : VNode) : String :=
  if n.id == "" then "fid=" ++ natStr n.fid else n.id

/-- Error list contributed by the `if not feat['ID']` check. -/
def vnodeIdErrors (n : VNode) : List String :=
  if n.id == "" then [vnodeLabel n ++ ": missing ID"] else []

/-- Error list contributed by the `if feat['InvertElev'] is None` check
(note: `is None`, so an elevation of `0` is accepted). -/
def vnodeElevErrors (n : VNode) : List String :=
  if n.invertElev = Option.none then [vnodeLabel n ++ ": missing InvertElev"] else []

/-- Nodes block of `SWMMCore.validate_layer_completeness`: the error
messages appended for the nodes layer, in feature order. -/
def validateNodes (ns : List VNode) : List String :=
  (ns.map (fun n => vnodeIdErrors n ++ vnodeElevErrors n)).flatten

/-! ### Specification predicates and concrete fixtures used by the theorems -/

/-- Canonical digit list of a natural number (the `natStrAux` call with its
canonical fuel). -/
def digitsOf (n : ℕ) : List Char := natStrAux (n + 1) n

/-- Reads a digit list back into a natural number (left inverse of
`digitsOf`, used to prove `natStr` injective). -/
def digitsValFold (cs : List Char) : ℕ :=
  cs.foldl (fun a c => 10 * a + (digitVal c).getD 0) 0

/-- The ID `idv` is the lowest-numbered `pfx ++ n` (`n ≥ 1`) whose rendering
is not in `S`. -/
def IsLeastFreshId (S : List String) (pfx : String) (idv : String) : Prop :=
  ∃ n : ℕ, 1 ≤ n ∧ idv = pfx ++ natStr n ∧ (pfx ++ natStr n) ∉ S ∧
    ∀ m : ℕ, 1 ≤ m → m < n → (pfx ++ natStr m) ∈ S

/-- IDs generated at the blank positions among the first `i` features
("generated earlier in the same pass" for position `i`). -/
def genBefore (feats out : List String) (i : ℕ) : List String :=
  ((feats.zip out).take i).filterMap
    (fun p => if isBlankId p.1 then some p.2 else Option.none)

/-- Fresh link record as `get_links_data` extracts it when every attribute
is NULL: all keys present, all values `None`. -/
def nullLink : PyDict :=
  [("ID", PyVal.none), ("InletNode", PyVal.none), ("OutletNode", PyVal.none),
   ("Length", PyVal.none), ("ManningN", PyVal.none),
   ("InOffset", PyVal.none), ("OutOffset", PyVal.none)]

/-- Fresh subcatchment attribute record with every attribute NULL. -/
def nullSubcat : PyDict :=
  [("ID", PyVal.none), ("RainGage", PyVal.none), ("Outlet", PyVal.none),
   ("Area", PyVal.none), ("PercImperv", PyVal.none),
   ("Width", PyVal.none), ("Slope", PyVal.none)]

/-- Node record of the serializer round-trip scenario: ID "N1",
elevation 10.5, max depth 1.0. -/
def demoNode : PyDict :=
  [("ID", PyVal.str "N1"), ("InvertElev", PyVal.num 10.5),
   ("MaxDepth", PyVal.num 1.0), ("X", PyVal.num 0.0), ("Y", PyVal.num 0.0)]

/-- Link record of the serializer round-trip scenario. -/
def demoLink : PyDict :=
  [("ID", PyVal.str "L1"), ("InletNode", PyVal.str "N1"),
   ("OutletNode", PyVal.str "N1"), ("Length", PyVal.num 12.0),
   ("ManningN", PyVal.num 0.009), ("InOffset", PyVal.num 0.0),
   ("OutOffset", PyVal.num 0.0)]

/-- Attribute record shared by the two demo subcatchments. -/
def demoSubcatAttrs : PyDict :=
  [("ID", PyVal.str "S1"), ("RainGage", PyVal.str "RG1"),
   ("Outlet", PyVal.str "N1"), ("Area", PyVal.num 2.0),
   ("PercImperv", PyVal.num 25.0), ("Width", PyVal.num 50.0),
   ("Slope", PyVal.num 0.5)]

/-- Triangular subcatchment whose boundary ring is explicitly closed
(4th vertex equals the 1st). -/
def demoSubcatClosed : SubcatData :=
  ⟨demoSubcatAttrs, [(0, 0), (100, 0), (0, 200), (0, 0)]⟩

/-- Quadrilateral subcatchment whose ring is not closed (last vertex
differs from the first). -/
def demoSubcatOpen : SubcatData :=
  ⟨demoSubcatAttrs, [(0, 0), (100, 0), (0, 200), (50, 50)]⟩

/-- Two-vertex link far away from every node, with both connectivity
attributes never written (NULL). -/
def strayLink : SnapLink := ⟨1, "L1", [(0, 0), (1, 0)], Option.none, Option.none⟩

/-- Single node more than 10 m away from both endpoints of `strayLink`. -/
def farNode : SnapNode := ⟨"N1", (100, 100)⟩

/-! ## Shared helper lemmas -/

/-- Splitting a list by a Boolean predicate preserves total length. -/
theorem length_filter_add_length_filter_not {α : Type} (p : α → Bool) (l : List α) :
    (l.filter p).length + (l.filter (fun x => !p x)).length = l.length := by
  induction l with
  | nil => rfl
  | cons x xs ih => by_cases h : p x <;> simp [List.filter, h] <;> omega

/-- Evaluation of `pyRound` at an integer argument. -/
theorem pyRound_intCast (z : ℤ) (d : ℕ) : pyRound (z : ℚ) d = (z : ℚ) := by
  unfold pyRound roundHalfEven
  have h1 : ((z : ℚ) * 10 ^ d) = ((z * 10 ^ d : ℤ) : ℚ) := by push_cast; ring
  rw [h1, Int.fract_intCast, Int.floor_intCast]
  norm_num

/-! ## C10: elevation sync classifies each node exactly once -/

/-- C10: on every run of the elevation sync, each node is counted either
as successful or as outside, so the returned summary satisfies
`successful + outside_dem = total_nodes`, with `total_nodes` the number of
node features; the operation is a total function returning this summary. -/
theorem sync_summary_partition (dem : DemOracle) (nodes : List EvNode) :
    ((syncElevations dem nodes).2).successful + ((syncElevations dem nodes).2).outside
        = ((syncElevations dem nodes).2).total ∧
    ((syncElevations dem nodes).2).total = nodes.length := by
  refine ⟨?_, rfl⟩
  simpa [syncElevations] using
    length_filter_add_length_filter_not (fun r : EvNode × Bool => r.2)
      (nodes.map (syncNode dem))

/-! ## C7: validator distinguishes null elevation from zero elevation -/

/-- C7: the completeness validator reports no elevation error for a node
whose elevation is present (in particular exactly 0), and exactly one
error, "missing InvertElev", for a node with a present ID and a null
elevation. -/
theorem validator_elev_null_vs_zero (n : VNode) :
    (∀ q : ℚ, n.invertElev = some q → vnodeElevErrors n = []) ∧
    (n.id ≠ "" → n.invertElev = some 0 → validateNodes [n] = []) ∧
    (n.id ≠ "" → n.invertElev = Option.none →
      validateNodes [n] = [n.id ++ ": missing InvertElev"]) := by
  refine ⟨?_, ?_, ?_⟩
  · intro q hq
    simp [vnodeElevErrors, hq]
  · intro hid hq
    simp [validateNodes, vnodeIdErrors, vnodeElevErrors, hid, hq]
  · intro hid hq
    simp [validateNodes, vnodeIdErrors, vnodeElevErrors, vnodeLabel, hid, hq]

/-- C7 witness: a node with feature id 7, ID "N1" and null elevation gets
exactly the one error; with elevation 0 it gets none. -/
theorem validator_elev_null_vs_zero_witness :
    validateNodes [⟨7, "N1", Option.none⟩] = ["N1: missing InvertElev"] ∧
    validateNodes [⟨7, "N1", some 0⟩] = [] := by
  constructor
  · exact (validator_elev_null_vs_zero ⟨7, "N1", Option.none⟩).2.2 (by decide) rfl
  · exact (validator_elev_null_vs_zero ⟨7, "N1", some 0⟩).2.1 (by decide) rfl

/-! ## C9: subcatchment area in hectares -/

/-- C9: the derived subcatchment area is the planar shoelace area divided
by 10000 (m² to ha) rounded to 4 decimals; an axis-aligned `w × h`
rectangle has shoelace area `|w*h|`, and the 100 m × 200 m rectangle
yields exactly 2.0000 ha. -/
theorem subcatchment_area_hectares :
    (∀ vs : List (ℚ × ℚ), autoAreaHa vs = pyRound (polyArea vs / 10000) 4) ∧
    (∀ a b w h : ℚ,
      polyArea [(a, b), (a + w, b), (a + w, b + h), (a, b + h)] = |w * h|) ∧
    autoAreaHa [(0, 0), (100, 0), (100, 200), (0, 200)] = 2 := by
  have hrect : ∀ a b w h : ℚ,
      polyArea [(a, b), (a + w, b), (a + w, b + h), (a, b + h)] = |w * h| := by
    intro a b w h
    have hsum : shoelaceFrom (a, b) [(a, b), (a + w, b), (a + w, b + h), (a, b + h)]
        = 2 * (w * h) := by
      simp [shoelaceFrom, crossTerm]
      ring
    simp only [polyArea, hsum, abs_mul]
    rw [abs_two]
    ring
  refine ⟨fun vs => rfl, hrect, ?_⟩
  have hs : shoelaceFrom ((0 : ℚ), (0 : ℚ))
      [((0 : ℚ), (0 : ℚ)), (100, 0), (100, 200), (0, 200)] = 40000 := by
    simp [shoelaceFrom, crossTerm]
    norm_num
  have h1 : polyArea [((0 : ℚ), (0 : ℚ)), (100, 0), (100, 200), (0, 200)] = 20000 := by
    simp only [polyArea, hs]
    rw [show |(40000 : ℚ)| = 40000 from abs_of_pos (by norm_num)]
    norm_num
  rw [autoAreaHa, h1]
  rw [show (20000 : ℚ) / 10000 = ((2 : ℤ) : ℚ) by norm_num]
  rw [pyRound_intCast]
  norm_num

/-! ## C6: elevation sync frame conditions -/

/-- C6: the sync maps each node through `syncNode`; `syncNode` always
writes the rounded X/Y coordinate attributes, writes the elevation
(rounded to 3 decimals) exactly for an in-extent point with a valid
sample, and leaves the elevation attribute unchanged for an out-of-extent
point or an invalid sample. -/
theorem sync_elevation_frame (dem : DemOracle) (nodes : List EvNode) :
    (syncElevations dem nodes).1 = nodes.map (fun n => (syncNode dem n).1) ∧
    ∀ n : EvNode,
      ((syncNode dem n).1).xAttr = some (pyRound n.pos.1 3) ∧
      ((syncNode dem n).1).yAttr = some (pyRound n.pos.2 3) ∧
      (dem.inExtent n.pos = false → ((syncNode dem n).1).invertElev = n.invertElev) ∧
      (∀ v : ℚ, dem.inExtent n.pos = true → dem.sample n.pos = (some v, true) →
        ((syncNode dem n).1).invertElev = some (pyRound v 3)) ∧
      (dem.inExtent n.pos = true →
        (dem.sample n.pos).1 = Option.none ∨ (dem.sample n.pos).2 = false →
        ((syncNode dem n).1).invertElev = n.invertElev) := by
  constructor
  · simp [syncElevations]
  · intro n
    rcases hs : dem.sample n.pos with ⟨o, b⟩
    by_cases he : dem.inExtent n.pos
    · refine ⟨?_, ?_, ?_, ?_, ?_⟩
      · unfold syncNode
        rw [hs]
        cases o <;> cases b <;> simp [he]
      · unfold syncNode
        rw [hs]
        cases o <;> cases b <;> simp [he]
      · intro hfalse
        rw [he] at hfalse
        exact absurd hfalse (by simp)
      · intro v _ hsv
        unfold syncNode
        rw [hs, hsv]
        simp [he]
      · intro _ hbad
        simp only at hbad
        unfold syncNode
        rw [hs]
        rcases hbad with rfl | rfl
        · simp [he]
        · cases o <;> simp [he]
    · simp only [Bool.not_eq_true] at he
      refine ⟨?_, ?_, ?_, ?_, ?_⟩
      · unfold syncNode
        simp [he]
      · unfold syncNode
        simp [he]
      · intro _
        unfold syncNode
        simp [he]
      · intro v hv
        rw [hv] at he
        exact absurd he (by simp)
      · intro hv
        rw [hv] at he
        exact absurd he (by simp)

/-- C6 witness: with an oracle whose extent is empty, a node keeps its
elevation while its coordinates are written. -/
theorem sync_elevation_frame_witness :
    ((syncNode ⟨fun _ => false, fun _ => (Option.none, false)⟩
        ⟨(1, 2), Option.none, Option.none, some 5⟩).1).invertElev = some 5 ∧
    ((syncNode ⟨fun _ => false, fun _ => (Option.none, false)⟩
        ⟨(1, 2), Option.none, Option.none, some 5⟩).1).xAttr = some (pyRound 1 3) := by
  have h := (sync_elevation_frame ⟨fun _ => false, fun _ => (Option.none, false)⟩
    []).2 ⟨(1, 2), Option.none, Option.none, some 5⟩
  exact ⟨h.2.2.1 rfl, h.1⟩

/-! ## C2: endpoint resolution via nearest node within tolerance -/

/-- Unfolding of `nearestNode` on a cons cell when the tail has no nodes. -/
theorem nearestNode_cons_of_none (p : ℚ × ℚ) (a : SnapNode) (rest : List SnapNode)
    (hr : nearestNode p rest = Option.none) : nearestNode p (a :: rest) = some a := by
  unfold nearestNode
  rw [hr]

/-- Unfolding of `nearestNode` on a cons cell when the tail has a nearest
node. -/
theorem nearestNode_cons_of_some (p : ℚ × ℚ) (a m : SnapNode) (rest : List SnapNode)
    (hr : nearestNode p rest = some m) :
    nearestNode p (a :: rest) =
      if sqDist p a.pos ≤ sqDist p m.pos then some a else some m := by
  unfold nearestNode
  rw [hr]

/-- Unfolding of `findNearestNode` when the index query returns a node. -/
theorem findNearestNode_of_some (p : ℚ × ℚ) (maxDist : ℚ) (nodes : List SnapNode)
    (n : SnapNode) (h : nearestNode p nodes = some n) :
    findNearestNode p maxDist nodes =
      if 0 ≤ maxDist ∧ sqDist p n.pos ≤ maxDist * maxDist then n.id else "" := by
  unfold findNearestNode
  rw [h]

/-- The nearest node returned by the index model is a member of the node
list. -/
theorem nearestNode_mem (p : ℚ × ℚ) :
    ∀ (ns : List SnapNode) (n : SnapNode), nearestNode p ns = some n → n ∈ ns := by
  intro ns
  induction ns with
  | nil => intro n h; simp [nearestNode] at h
  | cons a rest ih =>
    intro n h
    cases hr : nearestNode p rest with
    | none =>
      rw [nearestNode_cons_of_none p a rest hr] at h
      injection h with h
      exact h ▸ List.mem_cons_self a rest
    | some m =>
      rw [nearestNode_cons_of_some p a m rest hr] at h
      by_cases hd : sqDist p a.pos ≤ sqDist p m.pos
      · rw [if_pos hd] at h
        injection h with h
        exact h ▸ List.mem_cons_self a rest
      · rw [if_neg hd] at h
        injection h with h
        exact List.mem_cons_of_mem a (h ▸ ih m hr)

/-- When some node is strictly nearer to `p` than every other listed node,
the index model returns exactly that node. -/
theorem nearestNode_unique (p : ℚ × ℚ) :
    ∀ (ns : List SnapNode) (n : SnapNode), n ∈ ns →
      (∀ m ∈ ns, m ≠ n → sqDist p n.pos < sqDist p m.pos) →
      nearestNode p ns = some n := by
  intro ns
  induction ns with
  | nil => intro n hn _; simp at hn
  | cons a rest ih =>
    intro n hn hu
    by_cases han : a = n
    · subst han
      cases hr : nearestNode p rest with
      | none => exact nearestNode_cons_of_none p a rest hr
      | some m =>
        rw [nearestNode_cons_of_some p a m rest hr]
        have hm : m ∈ rest := nearestNode_mem p rest m hr
        by_cases hmn : m = a
        · subst hmn
          split <;> rfl
        · have hlt := hu m (List.mem_cons_of_mem a hm) hmn
          rw [if_pos (le_of_lt hlt)]
    · have hmem : n ∈ rest := by
        rcases List.mem_cons.mp hn with h | h
        · exact absurd h.symm han
        · exact h
      have ihr := ih n hmem (fun m hm hmn => hu m (List.mem_cons_of_mem a hm) hmn)
      rw [nearestNode_cons_of_some p a n rest ihr]
      have hlt := hu a (List.mem_cons_self a rest) han
      rw [if_neg (not_le.mpr hlt)]

/-- C2: an endpoint resolves to the (unique) nearest node's ID exactly when
that node lies within the tolerance, and to `""` otherwise; in particular,
an endpoint coinciding with a node position that is more than the tolerance
away from every other node resolves to that node's ID for every
tolerance ≥ 0. -/
theorem snap_endpoint_resolution :
    (∀ (nodes : List SnapNode) (tol : ℚ) (p : ℚ × ℚ) (n : SnapNode),
      0 ≤ tol → n ∈ nodes →
      (∀ m ∈ nodes, m ≠ n → sqDist p n.pos < sqDist p m.pos) →
      findNearestNode p tol nodes =
        if sqDist p n.pos ≤ tol * tol then n.id else "") ∧
    (∀ (nodes : List SnapNode) (tol : ℚ) (n1 n2 : SnapNode),
      0 ≤ tol → n1 ∈ nodes → n2 ∈ nodes →
      (∀ m ∈ nodes, m ≠ n1 → tol * tol < sqDist n1.pos m.pos) →
      (∀ m ∈ nodes, m ≠ n2 → tol * tol < sqDist n2.pos m.pos) →
      findNearestNode n1.pos tol nodes = n1.id ∧
      findNearestNode n2.pos tol nodes = n2.id) := by
  have part1 : ∀ (nodes : List SnapNode) (tol : ℚ) (p : ℚ × ℚ) (n : SnapNode),
      0 ≤ tol → n ∈ nodes →
      (∀ m ∈ nodes, m ≠ n → sqDist p n.pos < sqDist p m.pos) →
      findNearestNode p tol nodes =
        if sqDist p n.pos ≤ tol * tol then n.id else "" := by
    intro nodes tol p n htol hn hu
    rw [findNearestNode_of_some p tol nodes n (nearestNode_unique p nodes n hn hu)]
    by_cases hle : sqDist p n.pos ≤ tol * tol
    · rw [if_pos ⟨htol, hle⟩, if_pos hle]
    · rw [if_neg (fun hc : 0 ≤ tol ∧ sqDist p n.pos ≤ tol * tol => hle hc.2), if_neg hle]
  refine ⟨part1, ?_⟩
  intro nodes tol n1 n2 htol h1 h2 hu1 hu2
  have haux : ∀ n : SnapNode, n ∈ nodes →
      (∀ m ∈ nodes, m ≠ n → tol * tol < sqDist n.pos m.pos) →
      findNearestNode n.pos tol nodes = n.id := by
    intro n hn hu
    have hself : sqDist n.pos n.pos = 0 := by simp [sqDist]
    have huniq : ∀ m ∈ nodes, m ≠ n → sqDist n.pos n.pos < sqDist n.pos m.pos := by
      intro m hm hmn
      rw [hself]
      calc (0 : ℚ) ≤ tol * tol := mul_nonneg htol htol
        _ < sqDist n.pos m.pos := hu m hm hmn
    rw [part1 nodes tol n.pos n htol hn huniq]
    rw [if_pos (by rw [hself]; exact mul_nonneg htol htol)]
  exact ⟨haux n1 h1 hu1, haux n2 h2 hu2⟩

/-- C2 witness: two nodes 100 m apart, tolerance 10; a link whose endpoints
coincide with the node positions resolves to "N1" and "N2". -/
theorem snap_endpoint_resolution_witness :
    findNearestNode ((0 : ℚ), (0 : ℚ)) 10 [⟨"N1", (0, 0)⟩, ⟨"N2", (100, 0)⟩] = "N1" ∧
    findNearestNode ((100 : ℚ), (0 : ℚ)) 10 [⟨"N1", (0, 0)⟩, ⟨"N2", (100, 0)⟩] = "N2" := by
  have h := snap_endpoint_resolution.2 [⟨"N1", (0, 0)⟩, ⟨"N2", (100, 0)⟩] 10
    ⟨"N1", (0, 0)⟩ ⟨"N2", (100, 0)⟩ (by norm_num)
    (List.mem_cons_self _ _) (List.mem_cons_of_mem _ (List.mem_cons_self _ _))
    (by
      intro m hm hne
      rcases List.mem_cons.mp hm with rfl | hm2
      · exact absurd rfl hne
      · rcases List.mem_cons.mp hm2 with rfl | hm3
        · norm_num [sqDist]
        · simp at hm3)
    (by
      intro m hm hne
      rcases List.mem_cons.mp hm with rfl | hm2
      · norm_num [sqDist]
      · rcases List.mem_cons.mp hm2 with rfl | hm3
        · exact absurd rfl hne
        · simp at hm3)
  exact h

/-! ## C3: attribute writes of the snapping pass -/

/-- Unfolding of `snapUpdateLink` for a link with at least two vertices. -/
theorem snapUpdateLink_eq (nodes : List SnapNode) (tol : ℚ) (l : SnapLink)
    (v0 v1 : ℚ × ℚ) (rest : List (ℚ × ℚ)) (hv : l.verts = v0 :: v1 :: rest) :
    snapUpdateLink nodes tol l =
      if findNearestNode v0 tol nodes ≠ "" ∨
         findNearestNode ((v1 :: rest).getLast (List.cons_ne_nil v1 rest)) tol nodes ≠ "" then
        { l with
            inlet := some (findNearestNode v0 tol nodes),
            outlet := some (findNearestNode
              ((v1 :: rest).getLast (List.cons_ne_nil v1 rest)) tol nodes) }
      else l := by
  unfold snapUpdateLink
  rw [hv]

/-- Unfolding of `snapUpdateLink` for a link with fewer than two vertices. -/
theorem snapUpdateLink_short (nodes : List SnapNode) (tol : ℚ) (l : SnapLink)
    (hv : l.verts = [] ∨ ∃ v, l.verts = [v]) :
    snapUpdateLink nodes tol l = l := by
  rcases hv with hv | ⟨v, hv⟩ <;> (unfold snapUpdateLink; rw [hv])

/-- C3 counterexample: a two-vertex link whose endpoints both fail to
resolve is left entirely untouched by the snapping pass — its inlet and
outlet attributes remain unset (`Option.none`), contradicting the claim
that both attributes are always written for links with ≥ 2 vertices. -/
theorem snap_both_unresolved_cex :
    2 ≤ strayLink.verts.length ∧
    autoSnapLinks [farNode] 10 [strayLink] = [strayLink] ∧
    strayLink.inlet = Option.none ∧ strayLink.outlet = Option.none := by
  have hfar : ∀ p : ℚ × ℚ, ¬ sqDist p farNode.pos ≤ 10 * 10 →
      findNearestNode p 10 [farNode] = "" := by
    intro p hp
    rw [findNearestNode_of_some p 10 [farNode] farNode rfl]
    exact if_neg (fun hc => hp hc.2)
  have hin : findNearestNode ((0 : ℚ), (0 : ℚ)) 10 [farNode] = "" := by
    refine hfar _ ?_
    norm_num [sqDist, farNode]
  have hout : findNearestNode ((1 : ℚ), (0 : ℚ)) 10 [farNode] = "" := by
    refine hfar _ ?_
    norm_num [sqDist, farNode]
  have hupd : snapUpdateLink [farNode] 10 strayLink = strayLink := by
    rw [snapUpdateLink_eq [farNode] 10 strayLink (0, 0) (1, 0) [] rfl]
    rw [List.getLast_singleton]
    rw [hin, hout]
    simp
  refine ⟨by norm_num [strayLink], ?_, rfl, rfl⟩
  show [snapUpdateLink [farNode] 10 strayLink] = [strayLink]
  rw [hupd]

/-- C3 amended: the snapping pass writes both endpoint attributes (the
resolved ID, or `""` for an unresolved endpoint) for every link with at
least two vertices of which at least one endpoint resolved, leaves a link
with both endpoints unresolved untouched, and is idempotent on unchanged
geometry. -/
theorem snap_writes_and_idempotent (nodes : List SnapNode) (tol : ℚ) :
    (∀ (l : SnapLink) (v0 v1 : ℚ × ℚ) (rest : List (ℚ × ℚ)),
      l.verts = v0 :: v1 :: rest →
      ((findNearestNode v0 tol nodes = "" ∧
        findNearestNode ((v1 :: rest).getLast (List.cons_ne_nil v1 rest)) tol nodes = "" ∧
        snapUpdateLink nodes tol l = l) ∨
       ((snapUpdateLink nodes tol l).inlet = some (findNearestNode v0 tol nodes) ∧
        (snapUpdateLink nodes tol l).outlet = some (findNearestNode
          ((v1 :: rest).getLast (List.cons_ne_nil v1 rest)) tol nodes)))) ∧
    (∀ links : List SnapLink,
      autoSnapLinks nodes tol (autoSnapLinks nodes tol links)
        = autoSnapLinks nodes tol links) := by
  constructor
  · intro l v0 v1 rest hv
    by_cases hc : findNearestNode v0 tol nodes ≠ "" ∨
        findNearestNode ((v1 :: rest).getLast (List.cons_ne_nil v1 rest)) tol nodes ≠ ""
    · right
      rw [snapUpdateLink_eq nodes tol l v0 v1 rest hv, if_pos hc]
      exact ⟨rfl, rfl⟩
    · left
      push_neg at hc
      refine ⟨hc.1, hc.2, ?_⟩
      rw [snapUpdateLink_eq nodes tol l v0 v1 rest hv]
      rw [if_neg]
      push_neg
      exact hc
  · have hstep : ∀ l : SnapLink,
        snapUpdateLink nodes tol (snapUpdateLink nodes tol l) = snapUpdateLink nodes tol l := by
      intro l
      rcases hv : l.verts with _ | ⟨v0, vrest⟩
      · have h1 : snapUpdateLink nodes tol l = l :=
          snapUpdateLink_short nodes tol l (Or.inl hv)
        rw [h1, h1]
      · rcases vrest with _ | ⟨v1, rest⟩
        · have h1 : snapUpdateLink nodes tol l = l :=
            snapUpdateLink_short nodes tol l (Or.inr ⟨v0, hv⟩)
          rw [h1, h1]
        · by_cases hc : findNearestNode v0 tol nodes ≠ "" ∨
              findNearestNode ((v1 :: rest).getLast (List.cons_ne_nil v1 rest)) tol nodes ≠ ""
          · have hfix : ∀ l' : SnapLink, l'.verts = v0 :: v1 :: rest →
                l'.inlet = some (findNearestNode v0 tol nodes) →
                l'.outlet = some (findNearestNode
                  ((v1 :: rest).getLast (List.cons_ne_nil v1 rest)) tol nodes) →
                snapUpdateLink nodes tol l' = l' := by
              intro l' hv' hi ho
              rw [snapUpdateLink_eq nodes tol l' v0 v1 rest hv', if_pos hc]
              cases l'
              simp only at hi ho
              rw [← hi, ← ho]
            rw [snapUpdateLink_eq nodes tol l v0 v1 rest hv, if_pos hc]
            exact hfix _ hv rfl rfl
          · rw [snapUpdateLink_eq nodes tol l v0 v1 rest hv, if_neg hc]
            rw [snapUpdateLink_eq nodes tol l v0 v1 rest hv, if_neg hc]
    intro links
    unfold autoSnapLinks
    rw [List.map_map]
    exact List.map_congr_left (fun l _ => hstep l)

/-- C3 witness: a link whose start endpoint snaps to "N1" has both
attributes written by the pass. -/
theorem snap_writes_and_idempotent_witness :
    (snapUpdateLink [⟨"N1", (0, 0)⟩] 10
      ⟨2, "L2", [(0, 0), (5, 0)], Option.none, Option.none⟩).inlet = some "N1" := by
  have hfind : findNearestNode ((0 : ℚ), (0 : ℚ)) 10 [⟨"N1", (0, 0)⟩] = "N1" := by
    rw [findNearestNode_of_some ((0 : ℚ), (0 : ℚ)) 10 [⟨"N1", (0, 0)⟩] ⟨"N1", (0, 0)⟩ rfl]
    rw [if_pos ⟨by norm_num, by norm_num [sqDist]⟩]
  have h := (snap_writes_and_idempotent [⟨"N1", (0, 0)⟩] 10).1
    ⟨2, "L2", [(0, 0), (5, 0)], Option.none, Option.none⟩ (0, 0) (5, 0) [] rfl
  rcases h with ⟨h1, _, _⟩ | ⟨h2, _⟩
  · rw [hfind] at h1
    exact absurd h1 (by decide)
  · rw [h2, hfind]

/-! ## C1: serializer fallback constants -/

/-- An infix stays an infix after prepending a segment. -/
theorem isInfix_append_left' {α : Type} (X : List α) {m l : List α} (h : m <:+: l) :
    m <:+: X ++ l := by
  obtain ⟨s, t, rfl⟩ := h
  exact ⟨X ++ s, t, by simp [List.append_assoc]⟩

/-- A list is an infix of itself followed by anything. -/
theorem isInfix_refl_append {α : Type} (m t : List α) : m <:+: m ++ t := ⟨[], t, rfl⟩

/-- C1 counterexample: a link and a subcatchment record with all attribute
keys present but NULL serialize with 0 in every numeric column, not with
the documented fallback constants (length 100.0, roughness 0.009,
width 50.0, slope 0.01): `dict.get(key, default)` only falls back when the
key is absent, and `_safe_float(None)` is 0.0. -/
theorem export_null_not_fallback_cex :
    conduitLength nullLink = 0 ∧ conduitRough nullLink = 0 ∧
    subcatWidthVal nullSubcat = 0 ∧ subcatSlopeVal nullSubcat = 0 ∧
    ¬ (conduitLength nullLink = 100 ∧ conduitRough nullLink = 0.009 ∧
       subcatWidthVal nullSubcat = 50 ∧ subcatSlopeVal nullSubcat = 0.01) := by
  have hL : conduitLength nullLink = 0 := by
    simp [conduitLength, dictGet, nullLink, List.lookup, safeFloat]
  have hR : conduitRough nullLink = 0 := by
    simp [conduitRough, dictGet, nullLink, List.lookup, safeFloat]
  have hW : subcatWidthVal nullSubcat = 0 := by
    simp [subcatWidthVal, dictGet, nullSubcat, List.lookup, safeFloat]
  have hS : subcatSlopeVal nullSubcat = 0 := by
    simp [subcatSlopeVal, dictGet, nullSubcat, List.lookup, safeFloat]
  refine ⟨hL, hR, hW, hS, ?_⟩
  rintro ⟨h1, -, -, -⟩
  rw [hL] at h1
  norm_num at h1

/-- C1 amended: the fallback constants (length 100.0, roughness 0.009,
width 50.0, slope 0.01) are used exactly when the corresponding key is
absent from the record; a key present with a NULL value (or an unparseable
string) serializes as 0.0 via `_safe_float`; in every case the export is
total, emitting one CONDUITS row per link record and one SUBCATCHMENTS row
per subcatchment record. -/
theorem export_fallback_constants :
    (∀ link : PyDict,
      (List.lookup "Length" link = Option.none → conduitLength link = 100) ∧
      (List.lookup "ManningN" link = Option.none → conduitRough link = 0.009) ∧
      (List.lookup "Length" link = some PyVal.none → conduitLength link = 0) ∧
      (List.lookup "ManningN" link = some PyVal.none → conduitRough link = 0) ∧
      (∀ s : String, List.lookup "Length" link = some (PyVal.str s) →
        parseDecimal s = Option.none → conduitLength link = 0)) ∧
    (∀ sub : PyDict,
      (List.lookup "Width" sub = Option.none → subcatWidthVal sub = 50) ∧
      (List.lookup "Slope" sub = Option.none → subcatSlopeVal sub = 0.01) ∧
      (List.lookup "Width" sub = some PyVal.none → subcatWidthVal sub = 0) ∧
      (List.lookup "Slope" sub = some PyVal.none → subcatSlopeVal sub = 0)) ∧
    (∀ (t : String) (ns ls : List PyDict) (ss : List SubcatData),
      ls.map conduitLine <:+: exportLines t ns ls ss ∧
      ss.map (fun s => subcatLine s.attrs) <:+: exportLines t ns ls ss) := by
  refine ⟨?_, ?_, ?_⟩
  · intro link
    refine ⟨?_, ?_, ?_, ?_, ?_⟩
    · intro h; simp [conduitLength, dictGet, h, safeFloat]; norm_num
    · intro h; simp [conduitRough, dictGet, h, safeFloat]
    · intro h; simp [conduitLength, dictGet, h, safeFloat]
    · intro h; simp [conduitRough, dictGet, h, safeFloat]
    · intro s h hp; simp [conduitLength, dictGet, h, safeFloat, hp]
  · intro sub
    refine ⟨?_, ?_, ?_, ?_⟩
    · intro h; simp [subcatWidthVal, dictGet, h, safeFloat]; norm_num
    · intro h; simp [subcatSlopeVal, dictGet, h, safeFloat]
    · intro h; simp [subcatWidthVal, dictGet, h, safeFloat]
    · intro h; simp [subcatSlopeVal, dictGet, h, safeFloat]
  · intro t ns ls ss
    constructor
    · unfold exportLines
      simp only [List.append_assoc]
      apply isInfix_append_left'
      apply isInfix_append_left'
      apply isInfix_append_left'
      apply isInfix_append_left'
      apply isInfix_append_left'
      apply isInfix_append_left'
      apply isInfix_append_left'
      exact isInfix_refl_append _ _
    · unfold exportLines
      simp only [List.append_assoc]
      apply isInfix_append_left'
      apply isInfix_append_left'
      apply isInfix_append_left'
      apply isInfix_append_left'
      apply isInfix_append_left'
      apply isInfix_append_left'
      apply isInfix_append_left'
      apply isInfix_append_left'
      apply isInfix_append_left'
      apply isInfix_append_left'
      apply isInfix_append_left'
      apply isInfix_append_left'
      apply isInfix_append_left'
      exact isInfix_refl_append _ _

/-- C1 witness: records lacking the keys get the fallbacks; a record whose
Length key is present but NULL gets 0. -/
theorem export_fallback_constants_witness :
    conduitLength [] = 100 ∧ conduitRough [] = 0.009 ∧
    subcatWidthVal [] = 50 ∧ subcatSlopeVal [] = 0.01 ∧
    conduitLength [("Length", PyVal.none)] = 0 := by
  refine ⟨(export_fallback_constants.1 []).1 rfl,
          (export_fallback_constants.1 []).2.1 rfl,
          (export_fallback_constants.2.1 []).1 rfl,
          (export_fallback_constants.2.1 []).2.1 rfl,
          (export_fallback_constants.1 [("Length", PyVal.none)]).2.2.1 (by decide)⟩

/-! ## C4: subcatchment slope and width derivation -/

/-- Left fold with `min` stays below its initial value. -/
theorem foldl_min_le_init (f : ℚ × ℚ → ℚ) (l : List (ℚ × ℚ)) :
    ∀ a : ℚ, l.foldl (fun acc q => min acc (f q)) a ≤ a := by
  induction l with
  | nil => intro a; exact le_refl a
  | cons x xs ih => intro a; exact le_trans (ih (min a (f x))) (min_le_left _ _)

/-- Left fold with `min` is below every listed value. -/
theorem foldl_min_le_mem (f : ℚ × ℚ → ℚ) (l : List (ℚ × ℚ)) :
    ∀ (a : ℚ) (p : ℚ × ℚ), p ∈ l → l.foldl (fun acc q => min acc (f q)) a ≤ f p := by
  induction l with
  | nil => intro a p hp; simp at hp
  | cons x xs ih =>
    intro a p hp
    rcases List.mem_cons.mp hp with rfl | hp2
    · exact le_trans (foldl_min_le_init f xs (min a (f p))) (min_le_right _ _)
    · exact ih (min a (f x)) p hp2

/-- Left fold with `max` stays above its initial value. -/
theorem le_foldl_max_init (f : ℚ × ℚ → ℚ) (l : List (ℚ × ℚ)) :
    ∀ a : ℚ, a ≤ l.foldl (fun acc q => max acc (f q)) a := by
  induction l with
  | nil => intro a; exact le_refl a
  | cons x xs ih => intro a; exact le_trans (le_max_left _ _) (ih (max a (f x)))

/-- Left fold with `max` is above every listed value. -/
theorem le_foldl_max_mem (f : ℚ × ℚ → ℚ) (l : List (ℚ × ℚ)) :
    ∀ (a : ℚ) (p : ℚ × ℚ), p ∈ l → f p ≤ l.foldl (fun acc q => max acc (f q)) a := by
  induction l with
  | nil => intro a p hp; simp at hp
  | cons x xs ih =>
    intro a p hp
    rcases List.mem_cons.mp hp with rfl | hp2
    · exact le_trans (le_max_right _ _) (le_foldl_max_init f xs (max a (f p)))
    · exact ih (max a (f x)) p hp2

/-- Every vertex lies inside the computed bounding box. -/
theorem bbox_bounds (v : ℚ × ℚ) (rest : List (ℚ × ℚ)) (p : ℚ × ℚ)
    (hp : p ∈ v :: rest) :
    bboxXMin (v :: rest) ≤ p.1 ∧ p.1 ≤ bboxXMax (v :: rest) ∧
    bboxYMin (v :: rest) ≤ p.2 ∧ p.2 ≤ bboxYMax (v :: rest) := by
  rcases List.mem_cons.mp hp with rfl | hp2
  · exact ⟨foldl_min_le_init (fun q => q.1) rest p.1,
      le_foldl_max_init (fun q => q.1) rest p.1,
      foldl_min_le_init (fun q => q.2) rest p.2,
      le_foldl_max_init (fun q => q.2) rest p.2⟩
  · exact ⟨foldl_min_le_mem (fun q => q.1) rest v.1 p hp2,
      le_foldl_max_mem (fun q => q.1) rest v.1 p hp2,
      foldl_min_le_mem (fun q => q.2) rest v.2 p hp2,
      le_foldl_max_mem (fun q => q.2) rest v.2 p hp2⟩

/-- The shoelace walk over a constant vertex list vanishes. -/
theorem shoelace_const (c : ℚ × ℚ) :
    ∀ l : List (ℚ × ℚ), (∀ p ∈ l, p = c) → shoelaceFrom c l = 0 := by
  intro l
  induction l with
  | nil => intro _; rfl
  | cons x xs ih =>
    intro h
    have hx : x = c := h x (List.mem_cons_self x xs)
    cases xs with
    | nil =>
      subst hx
      simp [shoelaceFrom, crossTerm]
    | cons y ys =>
      have hy : y = c := h y (List.mem_cons_of_mem x (List.mem_cons_self y ys))
      have ihr := ih (fun p hp => h p (List.mem_cons_of_mem x hp))
      simp only [shoelaceFrom] at ihr ⊢
      rw [ihr, hx, hy]
      simp [crossTerm]

/-- A zero characteristic length (degenerate bounding box) forces a zero
planar area: every vertex then coincides with the corner of the box. -/
theorem charLen_eq_zero_polyArea (vs : List (ℚ × ℚ)) (h : charLen vs = 0) :
    polyArea vs = 0 := by
  cases vs with
  | nil => rfl
  | cons v rest =>
    have hv := bbox_bounds v rest v (List.mem_cons_self v rest)
    have hw0 : 0 ≤ bboxWidth (v :: rest) := by
      unfold bboxWidth
      linarith [hv.1, hv.2.1]
    have hh0 : 0 ≤ bboxHeight (v :: rest) := by
      unfold bboxHeight
      linarith [hv.2.2.1, hv.2.2.2]
    have hwle : bboxWidth (v :: rest) ≤ 0 := by
      rw [← h]
      exact le_max_left _ _
    have hhle : bboxHeight (v :: rest) ≤ 0 := by
      rw [← h]
      exact le_max_right _ _
    have hw : bboxXMax (v :: rest) = bboxXMin (v :: rest) := by
      have := le_antisymm hwle hw0
      unfold bboxWidth at this
      linarith
    have hhh : bboxYMax (v :: rest) = bboxYMin (v :: rest) := by
      have := le_antisymm hhle hh0
      unfold bboxHeight at this
      linarith
    have hconst : ∀ p ∈ v :: rest, p = (bboxXMin (v :: rest), bboxYMin (v :: rest)) := by
      intro p hp
      have hb := bbox_bounds v rest p hp
      have hx : p.1 = bboxXMin (v :: rest) := by
        have := hb.2.1
        rw [hw] at this
        linarith [hb.1]
      have hy : p.2 = bboxYMin (v :: rest) := by
        have := hb.2.2.2
        rw [hhh] at this
        linarith [hb.2.2.1]
      exact Prod.ext hx hy
    have hvc : v = (bboxXMin (v :: rest), bboxYMin (v :: rest)) :=
      hconst v (List.mem_cons_self v rest)
    have hz : shoelaceFrom v (v :: rest) = 0 := by
      nth_rewrite 1 [hvc]
      exact shoelace_const _ _ hconst
    simp only [polyArea, hz]
    norm_num

/-- C4: slope falls back to 0.5 % with fewer than 2 valid samples or a zero
characteristic length, else is the sampled relief over the characteristic
length × 100, rounded to 2 decimals; width is area / characteristic length
rounded to 2 decimals, or sqrt(area) (necessarily 0) for a zero
characteristic length. -/
theorem slope_width_derivation (inPoly : ℚ × ℚ → Bool)
    (smp : ℚ × ℚ → Option ℚ × Bool) (vs : List (ℚ × ℚ)) :
    ((sampleElevationsInPolygon inPoly smp vs 25).length < 2 ∨ charLen vs = 0 →
      (autoSlopeWidth inPoly smp vs).1 = 0.5) ∧
    (2 ≤ (sampleElevationsInPolygon inPoly smp vs 25).length → 0 < charLen vs →
      (autoSlopeWidth inPoly smp vs).1 =
        pyRound ((listMax (sampleElevationsInPolygon inPoly smp vs 25)
          - listMin (sampleElevationsInPolygon inPoly smp vs 25)) / charLen vs * 100) 2) ∧
    (0 < charLen vs →
      (autoSlopeWidth inPoly smp vs).2 = pyRound (polyArea vs / charLen vs) 2) ∧
    (charLen vs = 0 →
      (autoSlopeWidth inPoly smp vs).2 = mathSqrtQ (polyArea vs) ∧
      (autoSlopeWidth inPoly smp vs).2 = 0) := by
  refine ⟨?_, ?_, ?_, ?_⟩
  · intro h
    unfold autoSlopeWidth
    simp only
    rcases h with hlen | hcl
    · rw [if_neg (by omega)]
    · by_cases hlen : 2 ≤ (sampleElevationsInPolygon inPoly smp vs 25).length
      · rw [if_pos hlen, if_neg (by rw [hcl]; exact lt_irrefl 0)]
      · rw [if_neg hlen]
  · intro hlen hcl
    unfold autoSlopeWidth
    simp only
    rw [if_pos hlen, if_pos hcl]
  · intro hcl
    unfold autoSlopeWidth
    simp only
    rw [if_pos hcl]
  · intro hcl
    have ha : polyArea vs = 0 := charLen_eq_zero_polyArea vs hcl
    have hs : mathSqrtQ (polyArea vs) = 0 := by
      rw [ha]
      simp [mathSqrtQ]
    constructor
    · unfold autoSlopeWidth
      simp only
      rw [if_neg (by rw [hcl]; exact lt_irrefl 0), hs]
      rw [show (0 : ℚ) = ((0 : ℤ) : ℚ) by norm_num, pyRound_intCast]
    · unfold autoSlopeWidth
      simp only
      rw [if_neg (by rw [hcl]; exact lt_irrefl 0), hs]
      rw [show (0 : ℚ) = ((0 : ℤ) : ℚ) by norm_num, pyRound_intCast]

/-- C4 witness: a single-point polygon has a degenerate bounding box, so
slope falls back to 0.5 % and width to sqrt(area) = 0. -/
theorem slope_width_derivation_witness :
    (autoSlopeWidth (fun _ => true) (fun _ => (Option.none, true)) [((0 : ℚ), (0 : ℚ))]).1 = 0.5 ∧
    (autoSlopeWidth (fun _ => true) (fun _ => (Option.none, true)) [((0 : ℚ), (0 : ℚ))]).2 = 0 := by
  have hcl : charLen [((0 : ℚ), (0 : ℚ))] = 0 := by
    norm_num [charLen, bboxWidth, bboxHeight, bboxXMax, bboxXMin, bboxYMax, bboxYMin]
  exact ⟨(slope_width_derivation _ _ _).1 (Or.inr hcl),
    ((slope_width_derivation _ _ _).2.2.2 hcl).2⟩

/-! ## C5: ID generation assigns lowest free numbers without collisions -/

/-- Rendering zero digits needs no fuel. -/
theorem natStrAux_zero (fuel : ℕ) : natStrAux fuel 0 = [] := by
  cases fuel <;> rfl

/-- The digit rendering is independent of the fuel, as long as the fuel
exceeds the number. -/
theorem natStrAux_fuel_irrel :
    ∀ (n f₁ f₂ : ℕ), n < f₁ → n < f₂ → natStrAux f₁ n = natStrAux f₂ n := by
  intro n
  induction n using Nat.strong_induction_on with
  | _ n ih =>
    intro f₁ f₂ h₁ h₂
    cases n with
    | zero => rw [natStrAux_zero, natStrAux_zero]
    | succ m =>
      cases f₁ with
      | zero => omega
      | succ k₁ =>
        cases f₂ with
        | zero => omega
        | succ k₂ =>
          simp only [natStrAux]
          congr 1
          have hdiv : (m + 1) / 10 < m + 1 := Nat.div_lt_self (Nat.succ_pos m) (by norm_num)
          exact ih ((m + 1) / 10) hdiv k₁ k₂ (by omega) (by omega)

/-- Peeling the last digit off the canonical digit list. -/
theorem digitsOf_succ (n : ℕ) (h : n ≠ 0) :
    digitsOf n = digitsOf (n / 10) ++ [Nat.digitChar (n % 10)] := by
  cases n with
  | zero => exact absurd rfl h
  | succ m =>
    show natStrAux (m + 2) (m + 1) = _
    simp only [natStrAux]
    congr 1
    have hdiv : (m + 1) / 10 < m + 1 := Nat.div_lt_self (Nat.succ_pos m) (by norm_num)
    exact natStrAux_fuel_irrel ((m + 1) / 10) (m + 1) ((m + 1) / 10 + 1) hdiv (by omega)

/-- Reading one more digit multiplies the accumulated value by ten. -/
theorem digitsValFold_append_digit (cs : List Char) (c : Char) :
    digitsValFold (cs ++ [c]) = 10 * digitsValFold cs + (digitVal c).getD 0 := by
  unfold digitsValFold
  rw [List.foldl_append]
  rfl

/-- The digit character of a digit reads back as that digit. -/
theorem digitVal_digitChar (d : ℕ) (h : d < 10) : digitVal (Nat.digitChar d) = some d := by
  interval_cases d <;> decide

/-- Reading back the canonical digit list recovers the number, so the
decimal rendering is injective. -/
theorem digitsValFold_digitsOf : ∀ n : ℕ, digitsValFold (digitsOf n) = n := by
  intro n
  induction n using Nat.strong_induction_on with
  | _ n ih =>
    by_cases h : n = 0
    · subst h; rfl
    · rw [digitsOf_succ n h, digitsValFold_append_digit,
        ih (n / 10) (Nat.div_lt_self (Nat.pos_of_ne_zero h) (by norm_num)),
        digitVal_digitChar (n % 10) (Nat.mod_lt n (by norm_num))]
      simp only [Option.getD_some]
      omega

/-- Python's decimal rendering of naturals is injective. -/
theorem natStr_inj : Function.Injective natStr := by
  intro a b h
  unfold natStr at h
  by_cases ha : a = 0 <;> by_cases hb : b = 0
  · omega
  · rw [if_pos ha, if_neg hb] at h
    have hd : ['0'] = digitsOf b := congrArg String.data h
    have hv := congrArg digitsValFold hd
    rw [digitsValFold_digitsOf] at hv
    exact absurd hv.symm (by simpa using hb)
  · rw [if_neg ha, if_pos hb] at h
    have hd : digitsOf a = ['0'] := congrArg String.data h
    have hv := congrArg digitsValFold hd
    rw [digitsValFold_digitsOf] at hv
    exact absurd hv (by simpa using ha)
  · rw [if_neg ha, if_neg hb] at h
    have hd : digitsOf a = digitsOf b := congrArg String.data h
    have hv := congrArg digitsValFold hd
    rw [digitsValFold_digitsOf, digitsValFold_digitsOf] at hv
    exact hv

/-- Appending to a fixed string on the left is cancellable. -/
theorem str_append_left_cancel (p a b : String) (h : p ++ a = p ++ b) : a = b := by
  have hd := congrArg String.data h
  rw [String.data_append, String.data_append] at hd
  have h2 := List.append_cancel_left hd
  cases a; cases b; exact congrArg String.mk h2

/-- Prefixed decimal IDs are injective in the number. -/
theorem prefixed_natStr_inj (pfx : String) :
    Function.Injective (fun n : ℕ => pfx ++ natStr n) := by
  intro a b h
  exact natStr_inj (str_append_left_cancel pfx _ _ h)

/-- The while-loop result never goes below its starting counter. -/
theorem findFreeAux_ge (pfx : String) (existing : List String) :
    ∀ (fuel c : ℕ), c ≤ findFreeAux pfx existing fuel c := by
  intro fuel
  induction fuel with
  | zero => intro c; exact le_refl c
  | succ k ih =>
    intro c
    unfold findFreeAux
    by_cases h : (pfx ++ natStr c) ∈ existing
    · rw [if_pos h]
      exact le_trans (Nat.le_succ c) (ih (c + 1))
    · rw [if_neg h]

/-- Every number skipped by the while loop was occupied. -/
theorem findFreeAux_below (pfx : String) (existing : List String) :
    ∀ (fuel c m : ℕ), c ≤ m → m < findFreeAux pfx existing fuel c →
      (pfx ++ natStr m) ∈ existing := by
  intro fuel
  induction fuel with
  | zero =>
    intro c m hc hm
    unfold findFreeAux at hm
    omega
  | succ k ih =>
    intro c m hc hm
    unfold findFreeAux at hm
    by_cases h : (pfx ++ natStr c) ∈ existing
    · rw [if_pos h] at hm
      rcases Nat.eq_or_lt_of_le hc with rfl | hlt
      · exact h
      · exact ih (c + 1) m hlt hm
    · rw [if_neg h] at hm
      omega

/-- If the loop result is still occupied, the fuel ran out after exactly
`fuel` steps. -/
theorem findFreeAux_reaches (pfx : String) (existing : List String) :
    ∀ (fuel c : ℕ), (pfx ++ natStr (findFreeAux pfx existing fuel c)) ∈ existing →
      findFreeAux pfx existing fuel c = c + fuel := by
  intro fuel
  induction fuel with
  | zero => intro c _; rfl
  | succ k ih =>
    intro c hm
    unfold findFreeAux at hm ⊢
    by_cases h : (pfx ++ natStr c) ∈ existing
    · rw [if_pos h] at hm ⊢
      rw [ih (c + 1) hm]
      omega
    · rw [if_neg h] at hm
      exact absurd hm h

/-- With fuel `existing.length + 1` the loop always lands on a free ID:
otherwise `existing.length + 1` distinct IDs would all lie in `existing`. -/
theorem findFreeAux_free (pfx : String) (existing : List String) (c : ℕ) :
    (pfx ++ natStr (findFreeAux pfx existing (existing.length + 1) c)) ∉ existing := by
  intro hmem
  have hr := findFreeAux_reaches pfx existing (existing.length + 1) c hmem
  have hall : ∀ k : ℕ, k ≤ existing.length → (pfx ++ natStr (c + k)) ∈ existing := by
    intro k hk
    rcases Nat.lt_or_ge (c + k) (findFreeAux pfx existing (existing.length + 1) c)
      with hlt | hge
    · exact findFreeAux_below pfx existing _ c (c + k) (Nat.le_add_right c k) hlt
    · exfalso
      rw [hr] at hge
      omega
  have hinj : Function.Injective (fun k : ℕ => pfx ++ natStr (c + k)) := by
    intro x y hxy
    have := prefixed_natStr_inj pfx hxy
    omega
  have hsub : (Finset.range (existing.length + 1)).image (fun k => pfx ++ natStr (c + k))
      ⊆ existing.toFinset := by
    intro s hs
    rw [Finset.mem_image] at hs
    obtain ⟨k, hk, rfl⟩ := hs
    rw [List.mem_toFinset]
    exact hall k (Nat.lt_succ_iff.mp (Finset.mem_range.mp hk))
  have hcard := Finset.card_le_card hsub
  rw [Finset.card_image_of_injective _ hinj, Finset.card_range] at hcard
  have := List.toFinset_card_le existing
  omega

/-- A generated ID at a blank position before `j` belongs to the
"generated earlier" set of position `j`. -/
theorem mem_genBefore (feats out : List String) (i j : ℕ) (hij : i < j)
    (hi : i < feats.length) (hio : i < out.length)
    (hb : isBlankId (feats.get ⟨i, hi⟩) = true) :
    out.get ⟨i, hio⟩ ∈ genBefore feats out j := by
  unfold genBefore
  apply List.mem_filterMap.mpr
  refine ⟨(feats.get ⟨i, hi⟩, out.get ⟨i, hio⟩), ?_, ?_⟩
  · have hz : i < (feats.zip out).length := by
      rw [List.length_zip]
      omega
    have hzi : (feats.zip out).get ⟨i, hz⟩ = (feats.get ⟨i, hi⟩, out.get ⟨i, hio⟩) := by
      simp [List.get_eq_getElem, List.getElem_zip]
    rw [← hzi]
    have hlt : i < ((feats.zip out).take j).length := by
      simp [List.length_take]
      omega
    have heq : ((feats.zip out).take j).get ⟨i, hlt⟩ = (feats.zip out).get ⟨i, hz⟩ := by
      simp [List.get_eq_getElem, List.getElem_take]
    rw [← heq]
    exact List.get_mem _ i hlt
  · simp only [hb, if_true]

/-- Invariant induction over the `_fill_ids` feature loop: under the
invariant that every number below the counter is already rendered in the
existing set, the pass preserves length, keeps non-blank IDs, and gives
every blank feature the lowest-numbered ID that is fresh with respect to
the existing set plus the IDs generated earlier in the pass. -/
theorem fillIdsGo_spec (pfx : String) :
    ∀ (feats existing : List String) (counter : ℕ),
      1 ≤ counter →
      (∀ m : ℕ, 1 ≤ m → m < counter → (pfx ++ natStr m) ∈ existing) →
      (fillIdsGo pfx feats existing counter).length = feats.length ∧
      (∀ (i : ℕ) (hi : i < feats.length)
        (ho : i < (fillIdsGo pfx feats existing counter).length),
        isBlankId (feats.get ⟨i, hi⟩) = false →
        (fillIdsGo pfx feats existing counter).get ⟨i, ho⟩ = feats.get ⟨i, hi⟩) ∧
      (∀ (i : ℕ) (hi : i < feats.length)
        (ho : i < (fillIdsGo pfx feats existing counter).length),
        isBlankId (feats.get ⟨i, hi⟩) = true →
        IsLeastFreshId
          (existing ++ genBefore feats (fillIdsGo pfx feats existing counter) i) pfx
          ((fillIdsGo pfx feats existing counter).get ⟨i, ho⟩)) := by
  intro feats
  induction feats with
  | nil =>
    intro existing counter _ _
    refine ⟨rfl, ?_, ?_⟩ <;> (intro i hi; simp at hi)
  | cons v rest ih =>
    intro existing counter hc1 hinv
    by_cases hbl : isBlankId v
    · -- blank head: a new ID is generated
      have hge : counter ≤ findFreeAux pfx existing (existing.length + 1) counter :=
        findFreeAux_ge pfx existing (existing.length + 1) counter
      have hfree := findFreeAux_free pfx existing counter
      have hall : ∀ m : ℕ, 1 ≤ m → m < findFreeAux pfx existing (existing.length + 1) counter →
          (pfx ++ natStr m) ∈ existing := by
        intro m hm1 hm2
        rcases Nat.lt_or_ge m counter with hlt | hge2
        · exact hinv m hm1 hlt
        · exact findFreeAux_below pfx existing (existing.length + 1) counter m hge2 hm2
      have hunf : fillIdsGo pfx (v :: rest) existing counter
          = (pfx ++ natStr (findFreeAux pfx existing (existing.length + 1) counter)) ::
            fillIdsGo pfx rest
              ((pfx ++ natStr (findFreeAux pfx existing (existing.length + 1) counter))
                :: existing)
              (findFreeAux pfx existing (existing.length + 1) counter + 1) := by
        conv_lhs => unfold fillIdsGo
        rw [if_pos hbl]
      have ihh := ih
        ((pfx ++ natStr (findFreeAux pfx existing (existing.length + 1) counter)) :: existing)
        (findFreeAux pfx existing (existing.length + 1) counter + 1)
        (by omega)
        (by
          intro m hm1 hm2
          rcases Nat.lt_or_ge m (findFreeAux pfx existing (existing.length + 1) counter)
            with hlt | hge2
          · exact List.mem_cons_of_mem _ (hall m hm1 hlt)
          · have hmeq : m = findFreeAux pfx existing (existing.length + 1) counter := by omega
            subst hmeq
            exact List.mem_cons_self _ _)
      refine ⟨?_, ?_, ?_⟩
      · simp only [hunf, List.length_cons, ihh.1]
      · intro i hi ho hb
        cases i with
        | zero =>
          have hb2 : isBlankId v = false := hb
          rw [hb2] at hbl
          exact absurd hbl (by simp)
        | succ j =>
          have hj : j < rest.length := by simpa using hi
          have hjo : j < (fillIdsGo pfx rest
              ((pfx ++ natStr (findFreeAux pfx existing (existing.length + 1) counter))
                :: existing)
              (findFreeAux pfx existing (existing.length + 1) counter + 1)).length := by
            rw [ihh.1]
            exact hj
          have hgoal := ihh.2.1 j hj hjo (by simpa using hb)
          rw [List.get_of_eq hunf]
          simp only [List.get_cons_succ]
          exact hgoal
      · intro i hi ho hb
        cases i with
        | zero =>
          rw [List.get_of_eq hunf]
          refine ⟨findFreeAux pfx existing (existing.length + 1) counter, by omega, rfl, ?_, ?_⟩
          · unfold genBefore
            simp only [List.take_zero, List.filterMap_nil, List.append_nil]
            exact hfree
          · intro m hm1 hm2
            unfold genBefore
            simp only [List.take_zero, List.filterMap_nil, List.append_nil]
            exact hall m hm1 hm2
        | succ j =>
          have hj : j < rest.length := by simpa using hi
          have hjo : j < (fillIdsGo pfx rest
              ((pfx ++ natStr (findFreeAux pfx existing (existing.length + 1) counter))
                :: existing)
              (findFreeAux pfx existing (existing.length + 1) counter + 1)).length := by
            rw [ihh.1]
            exact hj
          have hfresh := ihh.2.2 j hj hjo (by simpa using hb)
          rw [List.get_of_eq hunf]
          simp only [hunf, List.get_cons_succ]
          have hgb : genBefore (v :: rest)
              ((pfx ++ natStr (findFreeAux pfx existing (existing.length + 1) counter)) ::
                fillIdsGo pfx rest
                  ((pfx ++ natStr (findFreeAux pfx existing (existing.length + 1) counter))
                    :: existing)
                  (findFreeAux pfx existing (existing.length + 1) counter + 1))
              (j + 1)
            = (pfx ++ natStr (findFreeAux pfx existing (existing.length + 1) counter)) ::
              genBefore rest
                (fillIdsGo pfx rest
                  ((pfx ++ natStr (findFreeAux pfx existing (existing.length + 1) counter))
                    :: existing)
                  (findFreeAux pfx existing (existing.length + 1) counter + 1)) j := by
            unfold genBefore
            simp [hbl]
          rw [hgb]
          obtain ⟨k, hk1, hk2, hk3, hk4⟩ := hfresh
          refine ⟨k, hk1, hk2, ?_, ?_⟩
          · intro hmem
            apply hk3
            simp only [List.mem_append, List.mem_cons] at hmem ⊢
            tauto
          · intro m hm1 hm2
            have hmm := hk4 m hm1 hm2
            simp only [List.mem_append, List.mem_cons] at hmm ⊢
            tauto
    · -- non-blank head: feature untouched, state unchanged
      have hunf : fillIdsGo pfx (v :: rest) existing counter
          = v :: fillIdsGo pfx rest existing counter := by
        conv_lhs => unfold fillIdsGo
        rw [if_neg hbl]
      have ihh := ih existing counter hc1 hinv
      refine ⟨?_, ?_, ?_⟩
      · simp only [hunf, List.length_cons, ihh.1]
      · intro i hi ho hb
        cases i with
        | zero =>
          rw [List.get_of_eq hunf]
          rfl
        | succ j =>
          have hj : j < rest.length := by simpa using hi
          have hjo : j < (fillIdsGo pfx rest existing counter).length := by
            rw [ihh.1]
            exact hj
          have hgoal := ihh.2.1 j hj hjo (by simpa using hb)
          rw [List.get_of_eq hunf]
          simp only [List.get_cons_succ]
          exact hgoal
      · intro i hi ho hb
        cases i with
        | zero =>
          have hb2 : isBlankId v = true := hb
          exact absurd hb2 hbl
        | succ j =>
          have hj : j < rest.length := by simpa using hi
          have hjo : j < (fillIdsGo pfx rest existing counter).length := by
            rw [ihh.1]
            exact hj
          have hfresh := ihh.2.2 j hj hjo (by simpa using hb)
          rw [List.get_of_eq hunf]
          simp only [hunf, List.get_cons_succ]
          have hgb : genBefore (v :: rest) (v :: fillIdsGo pfx rest existing counter) (j + 1)
              = genBefore rest (fillIdsGo pfx rest existing counter) j := by
            unfold genBefore
            simp [hbl]
          rw [hgb]
          exact hfresh

/-- C5: in one ID-filling pass, every blank/whitespace-only feature gets
the lowest-numbered `pfx ++ n` (n ≥ 1) not among the pre-existing trimmed
IDs nor among IDs generated earlier in the pass; non-blank features are
untouched; no generated ID duplicates a pre-existing ID and no ID is
assigned twice. -/
theorem fill_ids_lowest_free (pfx : String) (feats : List String) :
    (fillIds pfx feats).length = feats.length ∧
    (∀ (i : ℕ) (hi : i < feats.length) (ho : i < (fillIds pfx feats).length),
      isBlankId (feats.get ⟨i, hi⟩) = false →
      (fillIds pfx feats).get ⟨i, ho⟩ = feats.get ⟨i, hi⟩) ∧
    (∀ (i : ℕ) (hi : i < feats.length) (ho : i < (fillIds pfx feats).length),
      isBlankId (feats.get ⟨i, hi⟩) = true →
      IsLeastFreshId
        (collectExisting feats ++ genBefore feats (fillIds pfx feats) i) pfx
        ((fillIds pfx feats).get ⟨i, ho⟩)) ∧
    (∀ (i : ℕ) (hi : i < feats.length) (ho : i < (fillIds pfx feats).length),
      isBlankId (feats.get ⟨i, hi⟩) = true →
      (fillIds pfx feats).get ⟨i, ho⟩ ∉ collectExisting feats) ∧
    (∀ (i j : ℕ) (hi : i < feats.length) (hj : j < feats.length)
      (hio : i < (fillIds pfx feats).length) (hjo : j < (fillIds pfx feats).length),
      i ≠ j → isBlankId (feats.get ⟨i, hi⟩) = true →
      isBlankId (feats.get ⟨j, hj⟩) = true →
      (fillIds pfx feats).get ⟨i, hio⟩ ≠ (fillIds pfx feats).get ⟨j, hjo⟩) := by
  have hspec := fillIdsGo_spec pfx feats (collectExisting feats) 1 (le_refl 1)
    (by intro m hm1 hm2; omega)
  have hlen : (fillIds pfx feats).length = feats.length := hspec.1
  have hkeep : ∀ (i : ℕ) (hi : i < feats.length) (ho : i < (fillIds pfx feats).length),
      isBlankId (feats.get ⟨i, hi⟩) = false →
      (fillIds pfx feats).get ⟨i, ho⟩ = feats.get ⟨i, hi⟩ := hspec.2.1
  have hfresh : ∀ (i : ℕ) (hi : i < feats.length) (ho : i < (fillIds pfx feats).length),
      isBlankId (feats.get ⟨i, hi⟩) = true →
      IsLeastFreshId
        (collectExisting feats ++ genBefore feats (fillIds pfx feats) i) pfx
        ((fillIds pfx feats).get ⟨i, ho⟩) := hspec.2.2
  have hnotpre : ∀ (i : ℕ) (hi : i < feats.length) (ho : i < (fillIds pfx feats).length),
      isBlankId (feats.get ⟨i, hi⟩) = true →
      (fillIds pfx feats).get ⟨i, ho⟩ ∉ collectExisting feats := by
    intro i hi ho hb hmem
    obtain ⟨k, _, hk2, hk3, _⟩ := hfresh i hi ho hb
    apply hk3
    rw [← hk2]
    exact List.mem_append_left _ hmem
  have hdistinct : ∀ (i j : ℕ) (hi : i < feats.length) (hj : j < feats.length)
      (hio : i < (fillIds pfx feats).length) (hjo : j < (fillIds pfx feats).length),
      i < j → isBlankId (feats.get ⟨i, hi⟩) = true →
      isBlankId (feats.get ⟨j, hj⟩) = true →
      (fillIds pfx feats).get ⟨i, hio⟩ ≠ (fillIds pfx feats).get ⟨j, hjo⟩ := by
    intro i j hi hj hio hjo hij hbi hbj heq
    obtain ⟨k, _, hk2, hk3, _⟩ := hfresh j hj hjo hbj
    apply hk3
    rw [← hk2, ← heq]
    exact List.mem_append_right _
      (mem_genBefore feats (fillIds pfx feats) i j hij hi hio hbi)
  refine ⟨hlen, hkeep, hfresh, hnotpre, ?_⟩
  intro i j hi hj hio hjo hne hbi hbj
  rcases Nat.lt_or_ge i j with hij | hge
  · exact hdistinct i j hi hj hio hjo hij hbi hbj
  · have hji : j < i := by omega
    intro heq
    exact hdistinct j i hj hi hjo hio hji hbj hbi heq.symm

/-- C5 witness: filling `["", "N2", " "]` with prefix `N` produces
`["N1", "N2", "N3"]` — the blanks get the lowest free numbers, skipping
the pre-existing "N2", and the non-blank feature is untouched. -/
theorem fill_ids_lowest_free_witness :
    (fillIds "N" ["", "N2", " "]).length = 3 ∧
    (fillIds "N" ["", "N2", " "]).get ⟨1, by decide⟩ = "N2" ∧
    (fillIds "N" ["", "N2", " "]).get ⟨0, by decide⟩
      ≠ (fillIds "N" ["", "N2", " "]).get ⟨2, by decide⟩ ∧
    (fillIds "N" ["", "N2", " "]).get ⟨0, by decide⟩ ∉ collectExisting ["", "N2", " "] := by
  refine ⟨(fill_ids_lowest_free "N" ["", "N2", " "]).1, ?_, ?_, ?_⟩
  · exact (fill_ids_lowest_free "N" ["", "N2", " "]).2.1 1 (by decide) (by decide) (by decide)
  · exact (fill_ids_lowest_free "N" ["", "N2", " "]).2.2.2.2 0 2 (by decide) (by decide)
      (by decide) (by decide) (by decide) (by decide) (by decide)
  · exact (fill_ids_lowest_free "N" ["", "N2", " "]).2.2.2.1 0 (by decide) (by decide)
      (by decide)

/-! ## C8: serializer row counts and closing-vertex handling -/

/-- C8: exporting one node, one link and one triangular subcatchment
produces exactly one data row under JUNCTIONS, CONDUITS and SUBCATCHMENTS;
the subcatchment's explicitly closed 4-vertex ring contributes exactly 3
Polygons rows (closing vertex dropped), while an unclosed 4-vertex ring
contributes 4. -/
theorem serializer_row_counts :
    (sectionDataRows (exportLines "T" [demoNode] [demoLink] [demoSubcatClosed])
      "[JUNCTIONS]").length = 1 ∧
    (sectionDataRows (exportLines "T" [demoNode] [demoLink] [demoSubcatClosed])
      "[CONDUITS]").length = 1 ∧
    (sectionDataRows (exportLines "T" [demoNode] [demoLink] [demoSubcatClosed])
      "[SUBCATCHMENTS]").length = 1 ∧
    (sectionDataRows (exportLines "T" [demoNode] [demoLink] [demoSubcatClosed])
      "[Polygons]").length = 3 ∧
    (sectionDataRows (exportLines "T" [demoNode] [demoLink] [demoSubcatOpen])
      "[Polygons]").length = 4 := by
  refine ⟨?_, ?_, ?_, ?_, ?_⟩ <;> decide
